import Mathlib

/-!
# Itinerary reorder engine and budget aggregates: a shallow embedding

This file embeds the list-manipulation core of the travel-planner app:
the drag-and-drop reorder logic inlined in `handleDragEnd`
(`src/ItineraryBuilderPage.jsx`), and the derived aggregates
(`src/helpers.js`, `src/ItineraryViewPage.jsx`, `src/BudgetPage.jsx`).

JavaScript arrays are `List`s; a JS value that may be `undefined`
(a missing `cost`, `category` or `activities` field, or the result of
destructuring an empty `splice` return) is an `Option`.  Numbers are
embedded as rationals.  `Array.prototype.splice` is embedded with its
exact index semantics for nonnegative indices: a start index beyond the
array length is clamped to the length.
-/

namespace TripPlanner

/-- An activity record as stored inside a day's `activities` array
(`src/ItineraryBuilderPage.jsx`, `addNewActivity`).  `cost` and
`category` may be absent (`undefined`). -/
structure Activity where
  name : String
  location : String
  startTime : String
  endTime : String
  cost : Option ℚ
  category : Option String
deriving DecidableEq

/-- An itinerary day document (`src/ItineraryBuilderPage.jsx`,
`addNewDay`): an explicit integer `order` rank and an optional
`activities` array. -/
structure Day where
  id : String
  date : String
  title : String
  order : Nat
  activities : Option (List Activity)
deriving DecidableEq

/-- JS `arr.splice(i, 1)` for a nonnegative index `i`, returning the
remaining array and the (possibly `undefined`) removed element obtained
by destructuring `const [removed] = arr.splice(i, 1)`.  When `i` is at
least the length, JS clamps the start to the length and removes
nothing. -/
def spliceRemove (l : List α) (i : Nat) : List α × Option α :=
  if h : i < l.length then (l.eraseIdx i, some (l.get ⟨i, h⟩)) else (l, none)

/-- JS `arr.splice(i, 0, a)` for a nonnegative index `i`: inserts `a` at
position `i`, clamped to the array length. -/
def spliceInsert (l : List α) (i : Nat) (a : α) : List α :=
  l.insertIdx (min i l.length) a

/-- `ItineraryBuilderPage.jsx` lines 92–94, embedded verbatim:
`const [removed] = reordered.splice(source.index, 1);`
`reordered.splice(destination.index, 0, removed);`.
The destructured `removed` may be `undefined`, and JS happily inserts
`undefined` into the array, so the result is a list of `Option`s. -/
def handleDayDragRaw (days : List α) (src dest : Nat) : List (Option α) :=
  let p := spliceRemove days src
  spliceInsert (p.1.map some) dest p.2

/-- The day-reorder move of `ItineraryBuilderPage.jsx` lines 92–94 (and
the same-day activity reorder of lines 116–118, which repeats the same
two splice calls): remove the element at `src`, reinsert it at `dest`.
On an in-range `src` this is exactly `handleDayDragRaw` with the
`Option` wrapper stripped (`handleDayDragRaw_eq_moveDay`); the `none`
branch is never reached under the engine's index contract. -/
def moveDay (days : List α) (src dest : Nat) : List α :=
  match spliceRemove days src with
  | (rest, some a) => spliceInsert rest dest a
  | (rest, _) => rest

/-- `ItineraryBuilderPage.jsx` lines 97–99: after a day reorder, every
day document's `order` field is overwritten with its index in the
reordered array (`map((item, index) => updateDoc(..., { order: index }))`). -/
def rewriteOrders (days : List Day) : List Day :=
  days.mapIdx fun index item => { item with order := index }

/-- The complete day-reorder operation: splice-based move followed by
the `order`-field rewrite. -/
def handleDayDrag (days : List Day) (src dest : Nat) : List Day :=
  rewriteOrders (moveDay days src dest)

/-- `ItineraryBuilderPage.jsx` lines 134–138, embedded verbatim:
`const [movedActivity] = sourceActivities.splice(source.index, 1);`
`destActivities.splice(destination.index, 0, movedActivity);`.
As in `handleDayDragRaw`, the moved element may be `undefined`. -/
def moveActivityCrossRaw (sourceActs destActs : List α) (src dest : Nat) :
    List α × List (Option α) :=
  let p := spliceRemove sourceActs src
  (p.1, spliceInsert (destActs.map some) dest p.2)

/-- The activity move of `handleDragEnd` (`type === 'activity'`): with
`sameDay = true` it is the single-list splice reposition of lines
116–118 (the destination list is untouched); with `sameDay = false` it
is the cross-day splice move of lines 134–138.  On an in-range `src` the
cross branch is exactly `moveActivityCrossRaw` with the `Option` wrapper
stripped (`moveActivityCrossRaw_eq_moveActivity`). -/
def moveActivity (sourceActs destActs : List α) (src dest : Nat) (sameDay : Bool) :
    List α × List α :=
  if sameDay then
    (moveDay sourceActs src dest, destActs)
  else
    match spliceRemove sourceActs src with
    | (newSource, some a) => (newSource, spliceInsert destActs dest a)
    | (newSource, _) => (newSource, destActs)

/-- `calculateTotalCost` from `src/helpers.js` lines 136–143: a `reduce`
over days of a `reduce` over `(day.activities || [])` adding
`Number(activity.cost || 0)`. -/
def calculateTotalCost (itineraries : List Day) : ℚ :=
  itineraries.foldl (fun total day =>
    total + (day.activities.getD []).foldl
      (fun sum activity => sum + activity.cost.getD 0) 0) 0

/-- `getTotalCost` from `src/ItineraryViewPage.jsx` lines 85–91: the
same nested `reduce`, adding `(activity.cost || 0)`. -/
def getTotalCost (itineraries : List Day) : ℚ :=
  itineraries.foldl (fun total day =>
    total + (day.activities.getD []).foldl
      (fun dayTotal activity => dayTotal + activity.cost.getD 0) 0) 0

/-- `getActivityCount` from `src/ItineraryViewPage.jsx` lines 93–97:
`reduce` adding `(day.activities || []).length`. -/
def getActivityCount (itineraries : List Day) : Nat :=
  itineraries.foldl (fun total day => total + (day.activities.getD []).length) 0

/-- JS `activity.category || 'activity'`: `undefined` and the empty
string are falsy, so both fall back to the default label. -/
def effCategory (a : Activity) : String :=
  match a.category with
  | none => "activity"
  | some s => if s = "" then "activity" else s

/-- One step of `categories[category] = (categories[category] || 0) + 1`
on a JS object, modelled as an insertion-ordered association list. -/
def bumpCategory : List (String × Nat) → String → List (String × Nat)
  | [], c => [(c, 1)]
  | (k, v) :: rest, c =>
      if k = c then (k, v + 1) :: rest else (k, v) :: bumpCategory rest c

/-- `getCategoryBreakdown` from `src/ItineraryViewPage.jsx` lines
99–108: a `forEach` over days and `(day.activities || [])` that bumps
the count of `activity.category || 'activity'` in a fresh object. -/
def getCategoryBreakdown (itineraries : List Day) : List (String × Nat) :=
  itineraries.foldl (fun categories day =>
    (day.activities.getD []).foldl
      (fun m a => bumpCategory m (effCategory a)) categories) []

/-- JS object property read `m[c] || 0` on the association-list model. -/
def lookupCount : List (String × Nat) → String → Nat
  | [], _ => 0
  | (k, v) :: rest, c => if k = c then v else lookupCount rest c

/-- `isOverBudget` from `src/helpers.js` lines 164–169: the day's summed
cost compared strictly against the daily budget. -/
def isOverBudget (day : Day) (dailyBudget : ℚ) : Bool :=
  let dayCost := (day.activities.getD []).foldl
    (fun sum activity => sum + activity.cost.getD 0) 0
  decide (dayCost > dailyBudget)

/-- The status/colour record returned by `getBudgetStatus`
(`src/BudgetPage.jsx`). -/
structure BudgetStatusInfo where
  status : String
  color : String
  bgColor : String
deriving DecidableEq

/-- `getBudgetStatus` from `src/BudgetPage.jsx` lines 121–133: the spent
total comes from `getTotalCost()` (which delegates to
`calculateTotalCost`), the percentage guards against a non-positive
budget, and the thresholds are `>= 100` and `>= 80` percent. -/
def getBudgetStatus (budget : ℚ) (itineraries : List Day) : BudgetStatusInfo :=
  let totalCost := calculateTotalCost itineraries
  let percentage : ℚ := if budget > 0 then totalCost / budget * 100 else 0
  if percentage ≥ 100 then ⟨"over", "text-red-600", "bg-red-100"⟩
  else if percentage ≥ 80 then ⟨"warning", "text-yellow-600", "bg-yellow-100"⟩
  else ⟨"good", "text-green-600", "bg-green-100"⟩

/-- `const remaining = budget - totalCost;` as computed in
`src/BudgetPage.jsx` (lines 123 and 138). -/
def budgetRemaining (budget : ℚ) (itineraries : List Day) : ℚ :=
  budget - calculateTotalCost itineraries

/-- The reference cost of a day: the sum of its activities' costs,
missing costs counting as 0. -/
def dayCostSpec (day : Day) : ℚ :=
  ((day.activities.getD []).map fun a => a.cost.getD 0).sum

/-- A sample activity used to instantiate the theorems below. -/
def sampleActivity : Activity :=
  { name := "Museum", location := "Centre", startTime := "10:00", endTime := "12:00",
    cost := some 5, category := some "food" }

/-- A sample day holding `sampleActivity`. -/
def sampleDay : Day :=
  { id := "d1", date := "2024-01-01", title := "Day 1", order := 0,
    activities := some [sampleActivity] }

/-- A sample day with no `activities` field. -/
def sampleDay2 : Day :=
  { id := "d2", date := "2024-01-02", title := "Day 2", order := 1, activities := none }

/-! ## Helper lemmas about splices -/

theorem spliceRemove_of_lt {l : List α} {i : Nat} (h : i < l.length) :
    spliceRemove l i = (l.eraseIdx i, some (l.get ⟨i, h⟩)) := by
  simp [spliceRemove, h]

theorem map_insertIdx (f : α → β) : ∀ (l : List α) (n : Nat) (a : α),
    (l.insertIdx n a).map f = (l.map f).insertIdx n (f a)
  | _, 0, _ => rfl
  | [], _ + 1, _ => rfl
  | b :: l, n + 1, a => by
      rw [List.insertIdx_succ_cons, List.map_cons, map_insertIdx f l n a, List.map_cons,
        List.insertIdx_succ_cons]

theorem insertIdx_eq_take_cons_drop : ∀ (l : List α) (n : Nat) (a : α), n ≤ l.length →
    l.insertIdx n a = l.take n ++ a :: l.drop n
  | _, 0, _, _ => by simp
  | [], n + 1, _, h => by simp at h
  | b :: l, n + 1, a, h => by
      rw [List.insertIdx_succ_cons, insertIdx_eq_take_cons_drop l n a (by simpa using h)]
      rfl

theorem insertIdx_perm_cons : ∀ (l : List α) (n : Nat) (a : α), n ≤ l.length →
    (l.insertIdx n a).Perm (a :: l)
  | l, 0, a, _ => by simp
  | [], n + 1, _, h => by simp at h
  | b :: l, n + 1, a, h => by
      rw [List.insertIdx_succ_cons]
      exact ((insertIdx_perm_cons l n a (by simpa using h)).cons b).trans
        (List.Perm.swap a b l)

theorem perm_get_cons_eraseIdx : ∀ (l : List α) (i : Nat) (h : i < l.length),
    l.Perm (l.get ⟨i, h⟩ :: l.eraseIdx i)
  | a :: l, 0, _ => List.Perm.refl _
  | a :: l, i + 1, h => by
      have hi : i < l.length := by simpa using h
      show (a :: l).Perm (l.get ⟨i, hi⟩ :: a :: l.eraseIdx i)
      exact ((perm_get_cons_eraseIdx l i hi).cons a).trans
        (List.Perm.swap (l.get ⟨i, hi⟩) a (l.eraseIdx i))

theorem insertIdx_get_eraseIdx : ∀ (l : List α) (i : Nat) (h : i < l.length),
    (l.eraseIdx i).insertIdx i (l.get ⟨i, h⟩) = l
  | a :: l, 0, _ => rfl
  | a :: l, i + 1, h => by
      have hi : i < l.length := by simpa using h
      show (a :: l.eraseIdx i).insertIdx (i + 1) (l.get ⟨i, hi⟩) = a :: l
      rw [List.insertIdx_succ_cons, insertIdx_get_eraseIdx l i hi]

/-! ## The engine on in-range indices -/

theorem moveDay_eq (days : List α) (src dest : Nat) (h : src < days.length) :
    moveDay days src dest
      = (days.eraseIdx src).insertIdx (min dest (days.length - 1)) (days.get ⟨src, h⟩) := by
  simp only [moveDay, spliceRemove_of_lt h, spliceInsert]
  rw [List.length_eraseIdx_of_lt h]

theorem length_moveDay (days : List α) (src dest : Nat) (h : src < days.length) :
    (moveDay days src dest).length = days.length := by
  have h1 : (days.eraseIdx src).length = days.length - 1 := List.length_eraseIdx_of_lt h
  have h2 : min dest (days.length - 1) ≤ (days.eraseIdx src).length := by omega
  rw [moveDay_eq days src dest h, List.length_insertIdx _ _ h2, h1]
  omega

theorem moveDay_eq_of_lt (days : List α) (src dest : Nat) (hs : src < days.length)
    (hd : dest < days.length) :
    moveDay days src dest = (days.eraseIdx src).insertIdx dest (days.get ⟨src, hs⟩) := by
  rw [moveDay_eq days src dest hs]
  have : min dest (days.length - 1) = dest := by omega
  rw [this]

/-- On an in-range source index the verbatim JS embedding of the day
move (with its possibly-`undefined` element) is the engine's move with
every element defined. -/
theorem handleDayDragRaw_eq_moveDay (days : List α) (src dest : Nat)
    (h : src < days.length) :
    handleDayDragRaw days src dest = (moveDay days src dest).map some := by
  simp only [handleDayDragRaw, moveDay, spliceRemove_of_lt h, spliceInsert, map_insertIdx,
    List.length_map]

/-- On an in-range source index the verbatim JS embedding of the
cross-day activity move is the engine's cross move with every element
defined. -/
theorem moveActivityCrossRaw_eq_moveActivity (sourceActs destActs : List α) (src dest : Nat)
    (h : src < sourceActs.length) :
    moveActivityCrossRaw sourceActs destActs src dest
      = ((moveActivity sourceActs destActs src dest false).1,
         (moveActivity sourceActs destActs src dest false).2.map some) := by
  simp [moveActivityCrossRaw, moveActivity, spliceRemove_of_lt h, spliceInsert, map_insertIdx]

/-! ## Order-field rewriting -/

theorem length_rewriteOrders (days : List Day) :
    (rewriteOrders days).length = days.length := by
  simp [rewriteOrders]

theorem order_get_rewriteOrders (days : List Day) (i : Nat)
    (h : i < (rewriteOrders days).length) :
    ((rewriteOrders days).get ⟨i, h⟩).order = i := by
  have hi : i < days.length := by rwa [length_rewriteOrders] at h
  have h' : i < (days.mapIdx fun index item => ({ item with order := index } : Day)).length := h
  show ((days.mapIdx fun index item =>
    ({ item with order := index } : Day)).get ⟨i, h'⟩).order = i
  rw [List.get_mapIdx days _ i hi]

theorem map_order_rewriteOrders (days : List Day) :
    (rewriteOrders days).map Day.order = List.range days.length := by
  apply List.ext_get
  · simp [length_rewriteOrders]
  · intro i h1 h2
    rw [List.get_map, order_get_rewriteOrders, List.get_range]

/-! ## The claims about the reorder engine -/

/-- C1: for in-range `sourceIndex`/`destIndex` the day-reorder move
preserves the multiset of elements — nothing is created, duplicated or
lost. -/
theorem moveDay_multiset_eq (days : List α) (src dest : Nat)
    (hs : src < days.length) (hd : dest < days.length) :
    (↑(moveDay days src dest) : Multiset α) = ↑days := by
  rw [Multiset.coe_eq_coe, moveDay_eq days src dest hs]
  have h2 : min dest (days.length - 1) ≤ (days.eraseIdx src).length := by
    rw [List.length_eraseIdx_of_lt hs]; omega
  exact (insertIdx_perm_cons _ _ _ h2).trans (perm_get_cons_eraseIdx days src hs).symm

theorem moveDay_multiset_eq_witness :
    0 < ([1, 2, 3] : List ℕ).length ∧ 2 < ([1, 2, 3] : List ℕ).length ∧
    (↑(moveDay ([1, 2, 3] : List ℕ) 0 2) : Multiset ℕ) = ↑([1, 2, 3] : List ℕ) :=
  ⟨by decide, by decide, moveDay_multiset_eq [1, 2, 3] 0 2 (by decide) (by decide)⟩

/-- C2: after the complete day-reorder operation (splice move followed
by the `order := index` rewrite) the list keeps its length, every
element's `order` field equals its zero-based position, and the order
values are exactly `0 .. n-1`, dense and pairwise distinct. -/
theorem handleDayDrag_orders_dense (days : List Day) (src dest : Nat)
    (hs : src < days.length) (hd : dest < days.length) :
    (handleDayDrag days src dest).length = days.length ∧
    (handleDayDrag days src dest).map Day.order = List.range days.length ∧
    ∀ i (h : i < (handleDayDrag days src dest).length),
      ((handleDayDrag days src dest).get ⟨i, h⟩).order = i := by
  have hl : (handleDayDrag days src dest).length = days.length := by
    rw [handleDayDrag, length_rewriteOrders, length_moveDay days src dest hs]
  refine ⟨hl, ?_, ?_⟩
  · rw [handleDayDrag, map_order_rewriteOrders, length_moveDay days src dest hs]
  · intro i h
    exact order_get_rewriteOrders _ i h

/-- C4 helper: removing at `i` and reinserting at `i` restores the
list. -/
theorem moveDay_same_idx (l : List α) (i : Nat) (h : i < l.length) :
    moveDay l i i = l := by
  rw [moveDay_eq_of_lt l i i h h, insertIdx_get_eraseIdx l i h]

/-- C4: a move with `sourceIndex = destIndex` is the identity, both for
the day reorder and for the same-day activity reposition. -/
theorem move_same_index_identity (days acts other : List α) (i j : Nat)
    (hi : i < days.length) (hj : j < acts.length) :
    moveDay days i i = days ∧ moveActivity acts other j j true = (acts, other) := by
  refine ⟨moveDay_same_idx days i hi, ?_⟩
  simp [moveActivity, moveDay_same_idx acts j hj]

theorem move_same_index_identity_witness :
    1 < ([4, 5, 6] : List ℕ).length ∧ 0 < ([7, 8] : List ℕ).length ∧
    moveDay ([4, 5, 6] : List ℕ) 1 1 = [4, 5, 6] ∧
    moveActivity ([7, 8] : List ℕ) [9] 0 0 true = ([7, 8], [9]) :=
  ⟨by decide, by decide,
    (move_same_index_identity [4, 5, 6] [7, 8] [9] 1 0 (by decide) (by decide)).1,
    (move_same_index_identity [4, 5, 6] [7, 8] [9] 1 0 (by decide) (by decide)).2⟩

/-- C5 helper: moving the element just inserted at `dest` back to `src`
is inserting it at `src` instead. -/
theorem moveDay_roundTrip_aux (m : List α) (x : α) (src dest : Nat)
    (hd : dest ≤ m.length) (hsm : src ≤ m.length) :
    moveDay (m.insertIdx dest x) dest src = m.insertIdx src x := by
  have hlen : (m.insertIdx dest x).length = m.length + 1 := List.length_insertIdx _ _ hd
  have hd2 : dest < (m.insertIdx dest x).length := by omega
  have hs2 : src < (m.insertIdx dest x).length := by omega
  rw [moveDay_eq_of_lt _ dest src hd2 hs2, List.eraseIdx_insertIdx,
    List.get_insertIdx_self m x dest hd]

/-- C5: the day-reorder move followed by the inverse move restores the
original sequence exactly. -/
theorem moveDay_roundTrip (days : List α) (src dest : Nat)
    (hs : src < days.length) (hd : dest < days.length) :
    moveDay (moveDay days src dest) dest src = days := by
  have hm : (days.eraseIdx src).length = days.length - 1 := List.length_eraseIdx_of_lt hs
  rw [moveDay_eq_of_lt days src dest hs hd,
    moveDay_roundTrip_aux _ _ src dest (by omega) (by omega),
    insertIdx_get_eraseIdx days src hs]

theorem moveDay_roundTrip_witness :
    0 < ([1, 2, 3, 4] : List ℕ).length ∧ 2 < ([1, 2, 3, 4] : List ℕ).length ∧
    moveDay (moveDay ([1, 2, 3, 4] : List ℕ) 0 2) 2 0 = [1, 2, 3, 4] :=
  ⟨by decide, by decide, moveDay_roundTrip [1, 2, 3, 4] 0 2 (by decide) (by decide)⟩

/-- C3: the cross-day activity move removes exactly the element at
`sourceIndex` from the source list (all other elements keeping their
relative order), inserts that same element unchanged at position
`destIndex` of the destination list (all other elements keeping their
relative order), and preserves the total element count. -/
theorem moveActivity_cross_spec (sourceActs destActs : List α) (src dest : Nat)
    (hs : src < sourceActs.length) (hd : dest ≤ destActs.length) :
    (moveActivity sourceActs destActs src dest false).1
        = sourceActs.take src ++ sourceActs.drop (src + 1) ∧
    (moveActivity sourceActs destActs src dest false).2
        = destActs.take dest ++ sourceActs.get ⟨src, hs⟩ :: destActs.drop dest ∧
    (moveActivity sourceActs destActs src dest false).1.length
        + (moveActivity sourceActs destActs src dest false).2.length
        = sourceActs.length + destActs.length := by
  have key : moveActivity sourceActs destActs src dest false
      = (sourceActs.eraseIdx src,
         destActs.insertIdx (min dest destActs.length) (sourceActs.get ⟨src, hs⟩)) := by
    simp [moveActivity, spliceRemove_of_lt hs, spliceInsert]
  have hmin : min dest destActs.length = dest := by omega
  have h1 : (sourceActs.eraseIdx src).length = sourceActs.length - 1 :=
    List.length_eraseIdx_of_lt hs
  have h2 : (destActs.insertIdx (min dest destActs.length)
      (sourceActs.get ⟨src, hs⟩)).length = destActs.length + 1 :=
    List.length_insertIdx _ _ (by omega)
  refine ⟨?_, ?_, ?_⟩
  · rw [key]
    exact List.eraseIdx_eq_take_drop_succ _ _
  · rw [key]
    show destActs.insertIdx (min dest destActs.length) (sourceActs.get ⟨src, hs⟩)
        = destActs.take dest ++ sourceActs.get ⟨src, hs⟩ :: destActs.drop dest
    rw [hmin, insertIdx_eq_take_cons_drop destActs dest _ hd]
  · rw [key]
    show (sourceActs.eraseIdx src).length
        + (destActs.insertIdx (min dest destActs.length) (sourceActs.get ⟨src, hs⟩)).length
        = sourceActs.length + destActs.length
    omega

theorem moveActivity_cross_spec_witness :
    0 < ([1, 2] : List ℕ).length ∧ 1 ≤ ([8, 9] : List ℕ).length ∧
    (moveActivity ([1, 2] : List ℕ) [8, 9] 0 1 false).1 = [2] ∧
    (moveActivity ([1, 2] : List ℕ) [8, 9] 0 1 false).2 = [8, 1, 9] :=
  ⟨by decide, by decide,
    by simpa using (moveActivity_cross_spec ([1, 2] : List ℕ) [8, 9] 0 1
      (by decide) (by decide)).1,
    by simpa using (moveActivity_cross_spec ([1, 2] : List ℕ) [8, 9] 0 1
      (by decide) (by decide)).2.1⟩

/-- C6 counterexample: with an out-of-range destination index the
engine signals no error — it silently clamps the index (JS splice
semantics) and returns a normal result, identical to the clamped
in-range call, both in the engine and in the verbatim JS embedding. -/
theorem moveDay_out_of_range_silent_cex :
    moveDay ["a", "b"] 0 5 = moveDay ["a", "b"] 0 1 ∧
    moveDay ["a", "b"] 0 5 = ["b", "a"] ∧
    handleDayDragRaw ["a", "b"] 0 5 = [some "b", some "a"] :=
  ⟨rfl, rfl, rfl⟩

/-- C6 amended: out-of-range indices are not signalled; a destination
index at or beyond the list length is silently clamped, giving the same
result as moving to the last position. -/
theorem moveDay_out_of_range_clamps (days : List α) (src dest : Nat)
    (hs : src < days.length) (hd : days.length ≤ dest) :
    moveDay days src dest = moveDay days src (days.length - 1) := by
  rw [moveDay_eq days src dest hs, moveDay_eq days src (days.length - 1) hs]
  have : min dest (days.length - 1) = min (days.length - 1) (days.length - 1) := by omega
  rw [this]

theorem moveDay_out_of_range_clamps_witness :
    0 < ([10, 20, 30] : List ℕ).length ∧ ([10, 20, 30] : List ℕ).length ≤ 99 ∧
    moveDay ([10, 20, 30] : List ℕ) 0 99 = moveDay [10, 20, 30] 0 2 :=
  ⟨by decide, by decide, moveDay_out_of_range_clamps [10, 20, 30] 0 99 (by decide) (by decide)⟩

theorem handleDayDrag_orders_dense_witness :
    0 < ([sampleDay, sampleDay2] : List Day).length ∧
    1 < ([sampleDay, sampleDay2] : List Day).length ∧
    (handleDayDrag [sampleDay, sampleDay2] 0 1).map Day.order = List.range 2 :=
  ⟨by decide, by decide,
    (handleDayDrag_orders_dense [sampleDay, sampleDay2] 0 1 (by decide) (by decide)).2.1⟩

/-! ## Aggregates -/

theorem foldl_add_map_sum [AddMonoid β] (f : α → β) : ∀ (l : List α) (c : β),
    l.foldl (fun s a => s + f a) c = c + (l.map f).sum
  | [], _ => by simp
  | a :: l, c => by
      rw [List.foldl_cons, foldl_add_map_sum f l (c + f a), List.map_cons, List.sum_cons,
        add_assoc]

theorem dayFoldCost_eq (day : Day) :
    (day.activities.getD []).foldl (fun sum activity => sum + activity.cost.getD 0) 0
      = dayCostSpec day := by
  rw [foldl_add_map_sum (fun a : Activity => a.cost.getD 0) _ 0, zero_add, dayCostSpec]

/-- C8: both total-cost computations (`calculateTotalCost` in
`helpers.js` and `getTotalCost` in `ItineraryViewPage.jsx`) equal the
sum over all days of the sum of that day's activity costs, where a
missing cost contributes 0 and a day with a missing activities list
contributes 0. -/
theorem totalCost_eq_sum (its : List Day) :
    calculateTotalCost its
        = (its.map fun day => ((day.activities.getD []).map fun a => a.cost.getD 0).sum).sum ∧
    getTotalCost its
        = (its.map fun day => ((day.activities.getD []).map fun a => a.cost.getD 0).sum).sum := by
  constructor
  · rw [calculateTotalCost, foldl_add_map_sum (fun day : Day =>
      (day.activities.getD []).foldl (fun sum activity => sum + activity.cost.getD 0) 0) its 0,
      zero_add]
    exact congrArg List.sum (List.map_congr_left fun day _ => dayFoldCost_eq day)
  · rw [getTotalCost, foldl_add_map_sum (fun day : Day =>
      (day.activities.getD []).foldl (fun dayTotal activity => dayTotal + activity.cost.getD 0) 0)
      its 0, zero_add]
    exact congrArg List.sum (List.map_congr_left fun day _ => dayFoldCost_eq day)

/-- C10: `isOverBudget` returns true exactly when the day's summed
activity cost (missing costs as 0) strictly exceeds the daily budget;
a day whose cost equals the budget exactly is not over budget. -/
theorem isOverBudget_iff (day : Day) (b : ℚ) :
    (isOverBudget day b = true ↔ dayCostSpec day > b) ∧
    isOverBudget day (dayCostSpec day) = false := by
  constructor
  · simp [isOverBudget, dayFoldCost_eq day]
  · simp [isOverBudget, dayFoldCost_eq day]

/-! ## Category breakdown -/

theorem lookupCount_bumpCategory_self : ∀ (m : List (String × Nat)) (c : String),
    lookupCount (bumpCategory m c) c = lookupCount m c + 1
  | [], c => by simp [bumpCategory, lookupCount]
  | (k, v) :: rest, c => by
      by_cases h : k = c
      · simp [bumpCategory, lookupCount, h]
      · simp [bumpCategory, lookupCount, h, lookupCount_bumpCategory_self rest c]

theorem lookupCount_bumpCategory_ne : ∀ (m : List (String × Nat)) (c c' : String), c' ≠ c →
    lookupCount (bumpCategory m c) c' = lookupCount m c'
  | [], c, c', h => by simp [bumpCategory, lookupCount, Ne.symm h]
  | (k, v) :: rest, c, c', h => by
      by_cases hk : k = c
      · simp [bumpCategory, lookupCount, hk, Ne.symm h]
      · simp only [bumpCategory, if_neg hk, lookupCount]
        rw [lookupCount_bumpCategory_ne rest c c' h]

theorem sumCounts_bumpCategory : ∀ (m : List (String × Nat)) (c : String),
    ((bumpCategory m c).map Prod.snd).sum = (m.map Prod.snd).sum + 1
  | [], c => by simp [bumpCategory]
  | (k, v) :: rest, c => by
      by_cases h : k = c
      · simp [bumpCategory, h]
        omega
      · simp [bumpCategory, h, sumCounts_bumpCategory rest c]
        omega

theorem lookupCount_foldl_bump (c : String) : ∀ (acts : List Activity) (m : List (String × Nat)),
    lookupCount (acts.foldl (fun m a => bumpCategory m (effCategory a)) m) c
      = lookupCount m c + acts.countP (fun a => effCategory a == c)
  | [], m => by simp
  | a :: acts, m => by
      rw [List.foldl_cons, lookupCount_foldl_bump c acts (bumpCategory m (effCategory a))]
      by_cases h : effCategory a = c
      · rw [h, lookupCount_bumpCategory_self]
        simp [List.countP_cons, h]
        omega
      · rw [lookupCount_bumpCategory_ne m (effCategory a) c (Ne.symm h)]
        simp [List.countP_cons, h]

theorem sumCounts_foldl_bump : ∀ (acts : List Activity) (m : List (String × Nat)),
    ((acts.foldl (fun m a => bumpCategory m (effCategory a)) m).map Prod.snd).sum
      = (m.map Prod.snd).sum + acts.length
  | [], m => by simp
  | a :: acts, m => by
      rw [List.foldl_cons, sumCounts_foldl_bump acts (bumpCategory m (effCategory a)),
        sumCounts_bumpCategory]
      simp
      omega

theorem lookupCount_breakdown_gen (c : String) :
    ∀ (its : List Day) (m : List (String × Nat)),
    lookupCount (its.foldl (fun categories day =>
        (day.activities.getD []).foldl (fun m a => bumpCategory m (effCategory a)) categories) m) c
      = lookupCount m c
        + ((its.map fun d => d.activities.getD []).flatten).countP (fun a => effCategory a == c)
  | [], m => by simp
  | d :: its, m => by
      rw [List.foldl_cons, lookupCount_breakdown_gen c its _,
        lookupCount_foldl_bump c (d.activities.getD []) m]
      simp [List.countP_append]
      omega

theorem sumCounts_breakdown_gen : ∀ (its : List Day) (m : List (String × Nat)),
    ((its.foldl (fun categories day =>
        (day.activities.getD []).foldl (fun m a => bumpCategory m (effCategory a)) categories)
        m).map Prod.snd).sum
      = (m.map Prod.snd).sum + (its.map fun d => (d.activities.getD []).length).sum
  | [], m => by simp
  | d :: its, m => by
      rw [List.foldl_cons, sumCounts_breakdown_gen its _, sumCounts_foldl_bump]
      simp
      omega

/-- C9: the category breakdown maps each category name to the number of
activities carrying it, an activity with a missing (or empty, which JS
also treats as falsy) category being counted under the default label
"activity"; the counts sum to the total activity count, which is the
sum of the days' activity-list lengths. -/
theorem categoryBreakdown_spec (its : List Day) :
    (∀ c : String, lookupCount (getCategoryBreakdown its) c
        = ((its.map fun d => d.activities.getD []).flatten).countP
            (fun a => effCategory a == c)) ∧
    ((getCategoryBreakdown its).map Prod.snd).sum = getActivityCount its ∧
    getActivityCount its = (its.map fun d => (d.activities.getD []).length).sum := by
  have hcount : getActivityCount its
      = (its.map fun d => (d.activities.getD []).length).sum := by
    rw [getActivityCount,
      foldl_add_map_sum (fun d : Day => (d.activities.getD []).length) its 0, Nat.zero_add]
  refine ⟨?_, ?_, hcount⟩
  · intro c
    have h := lookupCount_breakdown_gen c its []
    rw [getCategoryBreakdown, h]
    simp [lookupCount]
  · rw [getCategoryBreakdown, sumCounts_breakdown_gen its [], hcount]
    simp

/-! ## Budget status -/

/-- C7 counterexample: with budget 0 and spend 5 the claim demands the
"over" status (spent ≥ budget) but the code reports "good", because the
percentage is hard-coded to 0 whenever the budget is not positive. -/
theorem getBudgetStatus_zero_budget_cex :
    calculateTotalCost [sampleDay] = 5 ∧
    (0 : ℚ) ≤ calculateTotalCost [sampleDay] ∧
    (getBudgetStatus 0 [sampleDay]).status = "good" ∧
    (getBudgetStatus 0 [sampleDay]).status ≠ "over" := by
  have hcost : calculateTotalCost [sampleDay] = 5 := by
    norm_num [calculateTotalCost, sampleDay, sampleActivity]
  have hstatus : (getBudgetStatus 0 [sampleDay]).status = "good" := by
    norm_num [getBudgetStatus]
  exact ⟨hcost, by rw [hcost]; norm_num, hstatus, by rw [hstatus]; decide⟩

/-- C7 amended: with a positive budget, the status is "over" iff spent
≥ budget, "warning" iff 80% of budget ≤ spent < budget and "good" iff
spent < 80% of budget; with a non-positive budget the status is always
"good" regardless of spend; remaining = budget − spent and may be
negative. -/
theorem getBudgetStatus_spec (budget : ℚ) (its : List Day) :
    budgetRemaining budget its = budget - calculateTotalCost its ∧
    (budget ≤ 0 → (getBudgetStatus budget its).status = "good") ∧
    (0 < budget →
      ((getBudgetStatus budget its).status = "over" ↔
        budget ≤ calculateTotalCost its) ∧
      ((getBudgetStatus budget its).status = "warning" ↔
        80 / 100 * budget ≤ calculateTotalCost its ∧ calculateTotalCost its < budget) ∧
      ((getBudgetStatus budget its).status = "good" ↔
        calculateTotalCost its < 80 / 100 * budget)) := by
  set s := calculateTotalCost its with hs
  refine ⟨rfl, ?_, ?_⟩
  · intro hb
    have hnb : ¬ budget > 0 := not_lt.mpr hb
    norm_num [getBudgetStatus, hnb]
  · intro hb
    have h100 : s / budget * 100 ≥ 100 ↔ budget ≤ s := by
      rw [ge_iff_le, le_mul_iff_one_le_left (by norm_num : (0 : ℚ) < 100), one_le_div hb]
    have h80 : s / budget * 100 ≥ 80 ↔ 80 / 100 * budget ≤ s := by
      rw [ge_iff_le, div_mul_eq_mul_div, le_div_iff hb]
      constructor <;> intro h <;> linarith
    have hfrac : 80 / 100 * budget ≤ budget := by linarith
    have e : getBudgetStatus budget its =
        if s / budget * 100 ≥ 100 then ⟨"over", "text-red-600", "bg-red-100"⟩
        else if s / budget * 100 ≥ 80 then ⟨"warning", "text-yellow-600", "bg-yellow-100"⟩
        else ⟨"good", "text-green-600", "bg-green-100"⟩ := by
      simp [getBudgetStatus, hb, ← hs]
    rw [e]
    by_cases hA : s / budget * 100 ≥ 100
    · have hbs : budget ≤ s := h100.mp hA
      rw [if_pos hA]
      refine ⟨?_, ?_, ?_⟩
      · simp [hbs]
      · simp [show ¬ s < budget from not_lt.mpr hbs]
      · simp [show ¬ s < 80 / 100 * budget from not_lt.mpr (le_trans hfrac hbs)]
    · have hsb : s < budget := not_le.mp ((not_iff_not.mpr h100).mp hA)
      rw [if_neg hA]
      by_cases hB : s / budget * 100 ≥ 80
      · have hws : 80 / 100 * budget ≤ s := h80.mp hB
        rw [if_pos hB]
        refine ⟨?_, ?_, ?_⟩
        · simp [show ¬ budget ≤ s from not_le.mpr hsb]
        · simp [hws, hsb]
        · simp [show ¬ s < 80 / 100 * budget from not_lt.mpr hws]
      · have hgs : s < 80 / 100 * budget := not_le.mp ((not_iff_not.mpr h80).mp hB)
        rw [if_neg hB]
        refine ⟨?_, ?_, ?_⟩
        · simp [show ¬ budget ≤ s from not_le.mpr hsb]
        · simp [show ¬ 80 / 100 * budget ≤ s from not_le.mpr hgs]
        · simp [hgs]

theorem getBudgetStatus_spec_witness :
    (0 : ℚ) < 10 ∧ (getBudgetStatus 10 [sampleDay]).status = "good" :=
  ⟨by norm_num, (((getBudgetStatus_spec 10 [sampleDay]).2.2 (by norm_num)).2.2).mpr
    (by norm_num [calculateTotalCost, sampleDay, sampleActivity])⟩

end TripPlanner
